import Mathlib

/-!
Verification of the record-parsing and tolerant-recovery engine of the
`beauties` JSONL viewer (`src/lib/parse-jsonl.ts`).

The engine is shallowly embedded: JavaScript's `JSON.parse` is modelled as a
total function `Json.parse : String → Option Json` (`none` = the host parser
throws), `JSON.stringify` as `stringifyJson`, `String.prototype.trim` as
`jsTrim`, `String.prototype.split("\n")` as `splitNl`, and the three source
functions `parseJsonl`, `parseLines`, `buildResult` as Lean functions over
these models.  A JSON number keeps its source lexeme (its numeric value is
never inspected by the engine).
-/

/-- The JSON value universe produced by the host JSON parser.  `null` is the
JavaScript `null` value; the engine stores it both for a parsed `null`
literal and as the `data` of a failed record, exactly as the source does. -/
inductive Json where
  | null
  | bool (b : Bool)
  | num (lex : String)
  | str (s : String)
  | arr (items : List Json)
  | obj (fields : List (String × Json))

/-- JSON insignificant whitespace (RFC 8259): space, tab, line feed,
carriage return. -/
def jsonWs (c : Char) : Bool :=
  c = ' ' || c = '\t' || c = '\n' || c = '\r'

/-- Drop leading JSON whitespace. -/
def skipWs : List Char → List Char
  | [] => []
  | c :: cs => if jsonWs c then skipWs cs else c :: cs

/-- Value of one hexadecimal digit. -/
def hexDigitVal (c : Char) : Option Nat :=
  if '0' ≤ c ∧ c ≤ '9' then some (c.toNat - 48)
  else if 'a' ≤ c ∧ c ≤ 'f' then some (c.toNat - 87)
  else if 'A' ≤ c ∧ c ≤ 'F' then some (c.toNat - 55)
  else none

/-- Scan the body of a JSON string literal (the opening quote already
consumed), returning the decoded characters and the input after the closing
quote.  `fuel` dominates the input length. -/
def strBody : Nat → List Char → Option (List Char × List Char)
  | 0, _ => none
  | _ + 1, [] => none
  | fuel + 1, c :: cs =>
    if c = '"' then some ([], cs)
    else if c = '\\' then
      match cs with
      | [] => none
      | e :: cs2 =>
        let dec : Option (Char × List Char) :=
          if e = '"' then some ('"', cs2)
          else if e = '\\' then some ('\\', cs2)
          else if e = '/' then some ('/', cs2)
          else if e = 'b' then some ('\x08', cs2)
          else if e = 'f' then some ('\x0C', cs2)
          else if e = 'n' then some ('\n', cs2)
          else if e = 'r' then some ('\r', cs2)
          else if e = 't' then some ('\t', cs2)
          else if e = 'u' then
            match cs2 with
            | h1 :: h2 :: h3 :: h4 :: cs3 =>
              match hexDigitVal h1, hexDigitVal h2, hexDigitVal h3, hexDigitVal h4 with
              | some a, some b, some c2, some d =>
                some (Char.ofNat (((a * 16 + b) * 16 + c2) * 16 + d), cs3)
              | _, _, _, _ => none
            | _ => none
          else none
        match dec with
        | some (ch, rest) =>
          match strBody fuel rest with
          | some (acc, r2) => some (ch :: acc, r2)
          | none => none
        | none => none
    else if c.toNat < 0x20 then none
    else
      match strBody fuel cs with
      | some (acc, r2) => some (c :: acc, r2)
      | none => none

/-- Longest leading run of decimal digits, plus the rest. -/
def digitSpan : List Char → List Char × List Char
  | [] => ([], [])
  | c :: cs =>
    if '0' ≤ c ∧ c ≤ '9' then
      let p := digitSpan cs
      (c :: p.1, p.2)
    else ([], c :: cs)

/-- Optional fraction part of a JSON number literal. -/
def parseFrac (cs : List Char) : Option (List Char × List Char) :=
  match cs with
  | '.' :: t =>
    match digitSpan t with
    | ([], _) => none
    | (d, r) => some ('.' :: d, r)
  | _ => some ([], cs)

/-- Optional exponent part of a JSON number literal. -/
def parseExp (cs : List Char) : Option (List Char × List Char) :=
  match cs with
  | c :: t =>
    if c = 'e' ∨ c = 'E' then
      let sp : List Char × List Char :=
        match t with
        | s :: t2 => if s = '+' ∨ s = '-' then ([s], t2) else ([], s :: t2)
        | [] => ([], [])
      match digitSpan sp.2 with
      | ([], _) => none
      | (d, r) => some (c :: (sp.1 ++ d), r)
    else some ([], c :: t)
  | [] => some ([], [])

/-- A JSON number literal (strict RFC 8259 grammar: no leading zeros, no
bare dot), returned as its lexeme. -/
def parseNum (cs : List Char) : Option (List Char × List Char) :=
  let sp : List Char × List Char :=
    match cs with
    | '-' :: t => (['-'], t)
    | _ => ([], cs)
  match sp.2 with
  | [] => none
  | c :: t =>
    if c = '0' then
      match parseFrac t with
      | none => none
      | some (f, r1) =>
        match parseExp r1 with
        | none => none
        | some (e, r2) => some (sp.1 ++ c :: (f ++ e), r2)
    else if '1' ≤ c ∧ c ≤ '9' then
      match digitSpan t with
      | (d, r0) =>
        match parseFrac r0 with
        | none => none
        | some (f, r1) =>
          match parseExp r1 with
          | none => none
          | some (e, r2) => some (sp.1 ++ c :: (d ++ f ++ e), r2)
    else none

/-- Match a fixed literal (`true` / `false` / `null` tail). -/
def dropLit : List Char → List Char → Option (List Char)
  | [], cs => some cs
  | _ :: _, [] => none
  | l :: ls, c :: cs => if c = l then dropLit ls cs else none

/-- JavaScript object construction: assigning to an existing key replaces
the value but keeps the key's first position. -/
def objAssign : List (String × Json) → String → Json → List (String × Json)
  | [], k, v => [(k, v)]
  | (k0, v0) :: t, k, v =>
    if k0 = k then (k0, v) :: t else (k0, v0) :: objAssign t k v

/-- Fold a member list (textual order) into a JavaScript object. -/
def mkObj (pairs : List (String × Json)) : List (String × Json) :=
  pairs.foldl (fun acc kv => objAssign acc kv.1 kv.2) []

mutual

/-- One JSON value, starting at the first non-whitespace character. -/
def parseVal : Nat → List Char → Option (Json × List Char)
  | 0, _ => none
  | fuel + 1, cs =>
    match skipWs cs with
    | [] => none
    | c :: rest =>
      if c = '"' then
        match strBody (rest.length + 1) rest with
        | some (s, r) => some (Json.str (String.mk s), r)
        | none => none
      else if c = '[' then
        match skipWs rest with
        | ']' :: r => some (Json.arr [], r)
        | r2 =>
          match parseElems fuel r2 with
          | some (items, r) => some (Json.arr items, r)
          | none => none
      else if c = '\x7b' then
        match skipWs rest with
        | '\x7d' :: r => some (Json.obj [], r)
        | r2 =>
          match parseMembers fuel r2 with
          | some (fs, r) => some (Json.obj (mkObj fs), r)
          | none => none
      else if c = 't' then
        match dropLit ['r', 'u', 'e'] rest with
        | some r => some (Json.bool true, r)
        | none => none
      else if c = 'f' then
        match dropLit ['a', 'l', 's', 'e'] rest with
        | some r => some (Json.bool false, r)
        | none => none
      else if c = 'n' then
        match dropLit ['u', 'l', 'l'] rest with
        | some r => some (Json.null, r)
        | none => none
      else
        match parseNum (c :: rest) with
        | some (lex, r) => some (Json.num (String.mk lex), r)
        | none => none

/-- Non-empty comma-separated array elements up to the closing bracket. -/
def parseElems : Nat → List Char → Option (List Json × List Char)
  | 0, _ => none
  | fuel + 1, cs =>
    match parseVal fuel cs with
    | none => none
    | some (j, r) =>
      match skipWs r with
      | ',' :: r2 =>
        match parseElems fuel r2 with
        | some (items, r3) => some (j :: items, r3)
        | none => none
      | ']' :: r2 => some ([j], r2)
      | _ => none

/-- Non-empty comma-separated object members up to the closing brace,
in textual order. -/
def parseMembers : Nat → List Char → Option (List (String × Json) × List Char)
  | 0, _ => none
  | fuel + 1, cs =>
    match skipWs cs with
    | '"' :: rest =>
      match strBody (rest.length + 1) rest with
      | none => none
      | some (k, r) =>
        match skipWs r with
        | ':' :: r2 =>
          match parseVal fuel r2 with
          | none => none
          | some (v, r3) =>
            match skipWs r3 with
            | ',' :: r4 =>
              match parseMembers fuel r4 with
              | some (fs, r5) => some ((String.mk k, v) :: fs, r5)
              | none => none
            | '\x7d' :: r4 => some ([(String.mk k, v)], r4)
            | _ => none
        | _ => none
    | _ => none

end

/-- Model of `JSON.parse`: one JSON value followed only by whitespace;
`none` models the host parser throwing a `SyntaxError`. -/
def Json.parse (s : String) : Option Json :=
  match parseVal ((s.data.length + 1) * 4) s.data with
  | some (j, r) => if skipWs r = [] then some j else none
  | none => none

/-- Lower-case hexadecimal digit. -/
def hexDigit (n : Nat) : Char :=
  if n < 10 then Char.ofNat (48 + n) else Char.ofNat (87 + n)

/-- Escaping of one character inside a serialized JSON string. -/
def escapeChar (c : Char) : List Char :=
  if c = '"' then ['\\', '"']
  else if c = '\\' then ['\\', '\\']
  else if c = '\x08' then ['\\', 'b']
  else if c = '\x0C' then ['\\', 'f']
  else if c = '\n' then ['\\', 'n']
  else if c = '\r' then ['\\', 'r']
  else if c = '\t' then ['\\', 't']
  else if c.toNat < 0x20 then
    '\\' :: 'u' :: [hexDigit (c.toNat / 4096 % 16), hexDigit (c.toNat / 256 % 16),
      hexDigit (c.toNat / 16 % 16), hexDigit (c.toNat % 16)]
  else [c]

/-- Serialize a string with quotes and escapes. -/
def quoteStr (s : String) : String :=
  String.mk ('"' :: (s.data.map escapeChar).flatten ++ ['"'])

mutual

/-- Model of `JSON.stringify` (no indent argument): single-line canonical
text.  Numbers reproduce their stored lexeme. -/
def stringifyJson : Json → String
  | Json.null => "null"
  | Json.bool true => "true"
  | Json.bool false => "false"
  | Json.num lex => lex
  | Json.str s => quoteStr s
  | Json.arr items => "[" ++ stringifyArr items ++ "]"
  | Json.obj fs => "\x7b" ++ stringifyObj fs ++ "\x7d"

/-- Comma-separated serialized elements. -/
def stringifyArr : List Json → String
  | [] => ""
  | [j] => stringifyJson j
  | j :: rest => stringifyJson j ++ "," ++ stringifyArr rest

/-- Comma-separated serialized `key:value` members. -/
def stringifyObj : List (String × Json) → String
  | [] => ""
  | [(k, v)] => quoteStr k ++ ":" ++ stringifyJson v
  | (k, v) :: rest => quoteStr k ++ ":" ++ stringifyJson v ++ "," ++ stringifyObj rest

end

/-- JavaScript `String.prototype.trim` whitespace: WhiteSpace plus
LineTerminator code points. -/
def isJsWs (c : Char) : Bool :=
  c.toNat = 0x9 || c.toNat = 0xA || c.toNat = 0xB || c.toNat = 0xC ||
  c.toNat = 0xD || c.toNat = 0x20 || c.toNat = 0xA0 || c.toNat = 0x1680 ||
  (0x2000 ≤ c.toNat && c.toNat ≤ 0x200A) || c.toNat = 0x2028 ||
  c.toNat = 0x2029 || c.toNat = 0x202F || c.toNat = 0x205F ||
  c.toNat = 0x3000 || c.toNat = 0xFEFF

/-- Strip leading and trailing JavaScript whitespace from a character list. -/
def trimChars (cs : List Char) : List Char :=
  ((cs.dropWhile isJsWs).reverse.dropWhile isJsWs).reverse

/-- Model of `text.trim()`. -/
def jsTrim (s : String) : String :=
  String.mk (trimChars s.data)

/-- Split characters at every newline; `[[]]` on empty input, matching
`"".split("\n") = [""]`. -/
def splitNlChars : List Char → List (List Char)
  | [] => [[]]
  | c :: cs =>
    if c = '\n' then [] :: splitNlChars cs
    else
      match splitNlChars cs with
      | [] => [[c]]
      | l :: ls => (c :: l) :: ls

/-- Model of `text.split("\n")`. -/
def splitNl (s : String) : List String :=
  (splitNlChars s.data).map String.mk

/-- Model of `s.startsWith(c)` for a one-character needle. -/
def headIs (s : String) (c : Char) : Bool :=
  match s.data with
  | [] => false
  | d :: _ => d = c

/-- One record of the parse result (`ParsedRecord` in the source).
`data = Json.null` is the JavaScript `null`: stored both on failure and for
a successfully parsed `null` literal.  `error` is the optional message. -/
structure ParsedRecord where
  index : Nat
  data : Json
  raw : String
  error : Option String := none

/-- The aggregate result (`ParseResult` in the source). -/
structure ParseResult where
  records : List ParsedRecord
  columns : List String
  errorCount : Nat

/-- `Set.prototype.add`: append the key unless already present
(first-seen insertion order). -/
def addKey (cols : List String) (k : String) : List String :=
  if k ∈ cols then cols else cols ++ [k]

/-- Add every key of a list in order. -/
def addKeys (cols : List String) (ks : List String) : List String :=
  ks.foldl addKey cols

/-- The keys fed to the column set by a record value:
`typeof data === "object" && data !== null && !Array.isArray(data)` selects
exactly a JSON object, whose `Object.keys` are its field names in order. -/
def objKeys : Json → List String
  | Json.obj fs => fs.map Prod.fst
  | _ => []

/-- The loop body of `parseLines`, recursion over the remaining lines.
Arguments: remaining lines, physical line position `i` of the first of
them, records emitted so far `k` (`records.length` at this point), and the
column set so far.  Returns the records emitted from here on, the final
column set, and the number of errors from here on. -/
def processLines : List String → Nat → Nat → List String →
    List ParsedRecord × List String × Nat
  | [], _, _, cols => ([], cols, 0)
  | l :: rest, i, k, cols =>
    let t := jsTrim l
    if t = "" then processLines rest (i + 1) k cols
    else
      match Json.parse t with
      | some d =>
        let out := processLines rest (i + 1) (k + 1) (addKeys cols (objKeys d))
        ({ index := k, data := d, raw := t } :: out.1, out.2)
      | none =>
        let out := processLines rest (i + 1) (k + 1) cols
        ({ index := k, data := Json.null, raw := t,
           error := some ("Malformed JSON on line " ++ toString (i + 1)) } :: out.1,
         out.2.1, out.2.2 + 1)

/-- `parseLines` from the source: split on newlines and process every line
in order, starting with no records and an empty column set. -/
def parseLines (text : String) : ParseResult :=
  let out := processLines (splitNl text) 0 0 []
  { records := out.1, columns := out.2.1, errorCount := out.2.2 }

/-- One element of the items array handed to `buildResult`. -/
structure BuildItem where
  data : Json
  raw : String
  index : Nat

/-- `buildResult` from the source: wrap the items as records, accumulate
object keys into the column set, report zero errors. -/
def buildResult (items : List BuildItem) : ParseResult :=
  { records := items.map fun it => { index := it.index, data := it.data, raw := it.raw }
    columns := items.foldl (fun cols it => addKeys cols (objKeys it.data)) []
    errorCount := 0 }

/-- The elementwise map of the array branch:
`typeof item === "object" && item !== null ? item : {value: item}` keeps
arrays and objects and wraps every other value. -/
def wrapItem : Json → Json
  | Json.arr items => Json.arr items
  | Json.obj fs => Json.obj fs
  | j => Json.obj [("value", j)]

/-- `parsed.map((item, i) => ({data, raw, index: i}))`, with `i` running
from the given start. -/
def arrItems : Nat → List Json → List BuildItem
  | _, [] => []
  | i, x :: xs =>
    { data := wrapItem x, raw := stringifyJson x, index := i } :: arrItems (i + 1) xs

/-- `parseJsonl` from the source: sniff the trimmed text, try the whole
document as one JSON value when it starts with a bracket or brace, and fall
back to line-oriented parsing in every other case. -/
def parseJsonl (text : String) : ParseResult :=
  let trimmed := jsTrim text
  if headIs trimmed '[' || headIs trimmed '\x7b' then
    match Json.parse trimmed with
    | some (Json.arr items) => buildResult (arrItems 0 items)
    | some (Json.obj fs) =>
        buildResult [{ data := Json.obj fs, raw := trimmed, index := 0 }]
    | some _ => parseLines text
    | none => parseLines text
  else parseLines text

/-- Number of lines an input contributes records for: the lines whose
trimmed text is non-empty. -/
def nbCount : List String → Nat
  | [] => 0
  | l :: rest => if jsTrim l = "" then nbCount rest else nbCount rest + 1

/-- The Schema Accumulator as the specification describes it: a fold over
the emitted record sequence that adds the keys of every object-shaped
`data`, preserving first-seen order.  Stated from the spec to compare with
the column set computed inline by the code. -/
def specColumns (recs : List ParsedRecord) : List String :=
  recs.foldl (fun acc r => addKeys acc (objKeys r.data)) []

/-- `true` exactly on a top-level JSON array. -/
def isArrVal : Json → Bool
  | Json.arr _ => true
  | _ => false

/-- `true` exactly on a top-level JSON object. -/
def isObjVal : Json → Bool
  | Json.obj _ => true
  | _ => false

/-- A line free of line terminators (neither `\n` nor `\r`). -/
def noCrLf (l : String) : Bool :=
  l.data.all fun c => !(c == '\n') && !(c == '\r')

/-- Join lines with a separator, as `lines.join(sep)` would. -/
def joinSep (sep : String) : List String → String
  | [] => ""
  | [l] => l
  | l :: rest => l ++ sep ++ joinSep sep rest

/-- Append a carriage return to every line except the last: the shape
`text.split("\n")` produces on CRLF-terminated input. -/
def addCr : List String → List String
  | [] => []
  | [l] => [l]
  | l :: rest => (l ++ "\r") :: addCr rest

theorem addKeys_nil (cols : List String) : addKeys cols [] = cols := rfl

theorem processLines_length (ls : List String) : ∀ (i k : Nat) (cols : List String),
    (processLines ls i k cols).1.length = nbCount ls := by
  induction ls with
  | nil => intro i k cols; rfl
  | cons l rest ih =>
    intro i k cols
    simp only [processLines, nbCount]
    by_cases hb : jsTrim l = ""
    · rw [if_pos hb, if_pos hb]; exact ih _ _ _
    · rw [if_neg hb, if_neg hb]
      cases hp : Json.parse (jsTrim l) with
      | some d => simp only [List.length_cons, ih]
      | none => simp only [List.length_cons, ih]

theorem processLines_indices (ls : List String) : ∀ (i k : Nat) (cols : List String),
    ((processLines ls i k cols).1.map fun r => r.index) = List.range' k (nbCount ls) := by
  induction ls with
  | nil => intro i k cols; rfl
  | cons l rest ih =>
    intro i k cols
    simp only [processLines, nbCount]
    by_cases hb : jsTrim l = ""
    · rw [if_pos hb, if_pos hb]; exact ih _ _ _
    · rw [if_neg hb, if_neg hb, List.range'_succ]
      cases hp : Json.parse (jsTrim l) with
      | some d => simp only [List.map_cons, ih]
      | none => simp only [List.map_cons, ih]

theorem processLines_errorCount (ls : List String) : ∀ (i k : Nat) (cols : List String),
    (processLines ls i k cols).2.2 =
      ((processLines ls i k cols).1.filter fun r => r.error.isSome).length := by
  induction ls with
  | nil => intro i k cols; rfl
  | cons l rest ih =>
    intro i k cols
    simp only [processLines]
    by_cases hb : jsTrim l = ""
    · rw [if_pos hb]; exact ih _ _ _
    · rw [if_neg hb]
      cases hp : Json.parse (jsTrim l) with
      | some d => simpa using ih (i + 1) (k + 1) (addKeys cols (objKeys d))
      | none => simpa using ih (i + 1) (k + 1) cols

theorem processLines_columns (ls : List String) : ∀ (i k : Nat) (cols : List String),
    (processLines ls i k cols).2.1 =
      (processLines ls i k cols).1.foldl (fun acc r => addKeys acc (objKeys r.data)) cols := by
  induction ls with
  | nil => intro i k cols; rfl
  | cons l rest ih =>
    intro i k cols
    simp only [processLines]
    by_cases hb : jsTrim l = ""
    · rw [if_pos hb]; exact ih _ _ _
    · rw [if_neg hb]
      cases hp : Json.parse (jsTrim l) with
      | some d => simpa using ih (i + 1) (k + 1) (addKeys cols (objKeys d))
      | none => simpa using ih (i + 1) (k + 1) cols

theorem processLines_record_inv (ls : List String) : ∀ (i k : Nat) (cols : List String)
    (r : ParsedRecord), r ∈ (processLines ls i k cols).1 →
    (r.error = none → Json.parse r.raw = some r.data) ∧
    (r.error.isSome = true → r.data = Json.null) := by
  induction ls with
  | nil => intro i k cols r hr; cases hr
  | cons l rest ih =>
    intro i k cols r hr
    simp only [processLines] at hr
    by_cases hb : jsTrim l = ""
    · rw [if_pos hb] at hr; exact ih _ _ _ _ hr
    · rw [if_neg hb] at hr
      cases hp : Json.parse (jsTrim l) with
      | some d =>
        rw [hp] at hr
        simp only [List.mem_cons] at hr
        rcases hr with hr | hr
        · subst hr
          refine ⟨fun _ => hp, fun hs => ?_⟩
          simp at hs
        · exact ih _ _ _ _ hr
      | none =>
        rw [hp] at hr
        simp only [List.mem_cons] at hr
        rcases hr with hr | hr
        · subst hr
          exact ⟨fun hn => by simp at hn, fun _ => rfl⟩
        · exact ih _ _ _ _ hr

theorem buildResult_records_map_index (items : List BuildItem) :
    ((buildResult items).records.map fun r => r.index) = items.map fun it => it.index := by
  simp [buildResult]

theorem buildResult_error_none (items : List BuildItem) (r : ParsedRecord)
    (hr : r ∈ (buildResult items).records) : r.error = none := by
  simp only [buildResult, List.mem_map] at hr
  rcases hr with ⟨it, _, he⟩
  rw [← he]

theorem buildResult_columns_fold (items : List BuildItem) :
    (buildResult items).columns =
      (buildResult items).records.foldl (fun acc r => addKeys acc (objKeys r.data)) [] := by
  simp [buildResult, List.foldl_map]

theorem arrItems_length (items : List Json) : ∀ i : Nat, (arrItems i items).length = items.length := by
  induction items with
  | nil => intro i; rfl
  | cons x xs ih => intro i; simp [arrItems, ih]

theorem arrItems_map_index (items : List Json) : ∀ i : Nat,
    ((arrItems i items).map fun it => it.index) = List.range' i items.length := by
  induction items with
  | nil => intro i; rfl
  | cons x xs ih => intro i; simp only [arrItems, List.map_cons, List.length_cons,
      List.range'_succ, ih]

theorem arrItems_get? (items : List Json) : ∀ (i j : Nat) (x : Json),
    items.get? j = some x →
    (arrItems i items).get? j =
      some { data := wrapItem x, raw := stringifyJson x, index := i + j } := by
  induction items with
  | nil => intro i j x h; cases h
  | cons y ys ih =>
    intro i j x h
    cases j with
    | zero => cases h; rfl
    | succ j =>
      simp only [List.get?_cons_succ] at h
      have h2 := ih (i + 1) j x h
      have hstep : (arrItems i (y :: ys)).get? (j + 1) = (arrItems (i + 1) ys).get? j := rfl
      rw [hstep, h2, show i + 1 + j = i + (j + 1) from by omega]

theorem wrapItem_ne_null (x : Json) : wrapItem x ≠ Json.null := by
  cases x <;> simp [wrapItem]

theorem arrItems_data_ne_null (items : List Json) : ∀ (i : Nat) (it : BuildItem),
    it ∈ arrItems i items → it.data ≠ Json.null := by
  induction items with
  | nil => intro i it h; cases h
  | cons x xs ih =>
    intro i it h
    rcases List.mem_cons.mp h with h | h
    · subst h; exact wrapItem_ne_null x
    · exact ih _ _ h

theorem parseJsonl_cases (text : String) :
    parseJsonl text = parseLines text ∨
    (∃ items, Json.parse (jsTrim text) = some (Json.arr items) ∧
      parseJsonl text = buildResult (arrItems 0 items)) ∨
    (∃ fs, Json.parse (jsTrim text) = some (Json.obj fs) ∧
      parseJsonl text = buildResult [{ data := Json.obj fs, raw := jsTrim text, index := 0 }]) := by
  unfold parseJsonl
  by_cases hc : (headIs (jsTrim text) '[' || headIs (jsTrim text) '\x7b') = true
  · rw [if_pos hc]
    cases hp : Json.parse (jsTrim text) with
    | none => exact Or.inl rfl
    | some j =>
      cases j with
      | arr items => exact Or.inr (Or.inl ⟨items, rfl, rfl⟩)
      | obj fs => exact Or.inr (Or.inr ⟨fs, rfl, rfl⟩)
      | null => exact Or.inl rfl
      | bool b => exact Or.inl rfl
      | num lex => exact Or.inl rfl
      | str s => exact Or.inl rfl
  · rw [if_neg hc]; exact Or.inl rfl

theorem dropWhile_cons_false (p : Char → Bool) (l : List Char) (c : Char) (rest : List Char)
    (h : List.dropWhile p l = c :: rest) : p c = false := by
  induction l with
  | nil => cases h
  | cons a t ih =>
    rw [List.dropWhile_cons] at h
    by_cases ha : p a = true
    · rw [if_pos ha] at h; exact ih h
    · rw [if_neg ha] at h
      cases h
      exact Bool.eq_false_iff.mpr ha

theorem trimChars_head_not_ws (cs : List Char) (c : Char) (rest : List Char)
    (h : trimChars cs = c :: rest) : isJsWs c = false := by
  have hdef : trimChars cs = List.rdropWhile isJsWs (cs.dropWhile isJsWs) := rfl
  have hpre := List.rdropWhile_prefix isJsWs (cs.dropWhile isJsWs)
  rw [← hdef, h] at hpre
  rcases hpre with ⟨t, ht⟩
  exact dropWhile_cons_false isJsWs cs c (rest ++ t) (by rw [← ht]; rfl)

theorem jsonWs_sub_isJsWs (c : Char) (h : jsonWs c = true) : isJsWs c = true := by
  simp only [jsonWs, Bool.or_eq_true, decide_eq_true_eq] at h
  rcases h with ((h | h) | h) | h <;> subst h <;> rfl

theorem parse_some_inv (s : String) (j : Json) (h : Json.parse s = some j) :
    ∃ rr, parseVal ((s.data.length + 1) * 4) s.data = some (j, rr) ∧ skipWs rr = [] := by
  unfold Json.parse at h
  split at h
  · rename_i j2 rr hpv
    split at h
    · rename_i hw
      cases h
      exact ⟨rr, hpv, hw⟩
    · cases h
  · cases h

theorem parseVal_arr_head (fuel : Nat) (cs : List Char) (items : List Json) (r : List Char)
    (h : parseVal fuel cs = some (Json.arr items, r)) :
    ∃ rest2, skipWs cs = '[' :: rest2 := by
  cases fuel with
  | zero => simp [parseVal] at h
  | succ fuel =>
    unfold parseVal at h
    split at h
    · cases h
    · rename_i c rest hsk
      rw [hsk]
      split_ifs at h with h1 h2 h3 h4 h5 h6
      · split at h <;> simp_all
      · exact ⟨rest, by rw [h2]⟩
      · split at h
        · simp_all
        · split at h <;> simp_all
      · split at h <;> simp_all
      · split at h <;> simp_all
      · split at h <;> simp_all
      · split at h <;> simp_all

theorem parseJsonl_arr_branch (text : String) (items : List Json)
    (h : Json.parse (jsTrim text) = some (Json.arr items)) :
    parseJsonl text = buildResult (arrItems 0 items) := by
  obtain ⟨rr, hpv, _⟩ := parse_some_inv (jsTrim text) (Json.arr items) h
  obtain ⟨rest2, hskw⟩ := parseVal_arr_head _ _ _ _ hpv
  have hd : headIs (jsTrim text) '[' = true := by
    cases hdata : (jsTrim text).data with
    | nil => rw [hdata] at hskw; cases hskw
    | cons c cs0 =>
      have hws : isJsWs c = false :=
        trimChars_head_not_ws text.data c cs0 hdata
      have hjw : jsonWs c = false := by
        cases hc : jsonWs c
        · rfl
        · rw [jsonWs_sub_isJsWs c hc] at hws; cases hws
      rw [hdata] at hskw
      rw [skipWs, if_neg (by rw [hjw]; exact Bool.false_ne_true)] at hskw
      have hcb : c = '[' := by injection hskw with h1 _
      simp [headIs, hdata, hcb]
  unfold parseJsonl
  rw [if_pos (by rw [hd, Bool.true_or])]
  rw [h]

theorem processLines_error_at (ls : List String) : ∀ (i k : Nat) (cols : List String)
    (j : Nat) (x : String), ls.get? j = some x → jsTrim x ≠ "" → Json.parse (jsTrim x) = none →
    (processLines ls i k cols).1.get? (nbCount (ls.take j)) =
      some { index := k + nbCount (ls.take j), data := Json.null, raw := jsTrim x,
             error := some ("Malformed JSON on line " ++ toString (i + j + 1)) } := by
  induction ls with
  | nil => intro i k cols j x hj; cases hj
  | cons l rest ih =>
    intro i k cols j x hj hne hp
    cases j with
    | zero =>
      cases hj
      simp only [List.take_zero, nbCount, Nat.add_zero]
      simp only [processLines]
      rw [if_neg hne, hp]
      rfl
    | succ j =>
      simp only [List.get?_cons_succ] at hj
      simp only [List.take_succ_cons, nbCount]
      simp only [processLines]
      by_cases hb : jsTrim l = ""
      · rw [if_pos hb, if_pos hb]
        have := ih (i + 1) k cols j x hj hne hp
        rw [show i + (j + 1) + 1 = i + 1 + j + 1 from by omega]
        exact this
      · rw [if_neg hb, if_neg hb]
        cases hpl : Json.parse (jsTrim l) with
        | some d =>
          have := ih (i + 1) (k + 1) (addKeys cols (objKeys d)) j x hj hne hp
          simp only [List.get?_cons_succ]
          rw [show i + (j + 1) + 1 = i + 1 + j + 1 from by omega,
            show k + (nbCount (rest.take j) + 1) = k + 1 + nbCount (rest.take j) from by omega]
          exact this
        | none =>
          have := ih (i + 1) (k + 1) cols j x hj hne hp
          simp only [List.get?_cons_succ]
          rw [show i + (j + 1) + 1 = i + 1 + j + 1 from by omega,
            show k + (nbCount (rest.take j) + 1) = k + 1 + nbCount (rest.take j) from by omega]
          exact this

/-- C9: in line-oriented parsing, a non-blank line whose trimmed text is the
JSON literal `null` parses successfully and yields a record with
`data = Json.null`, `raw = "null"` and no error, while leaving the column
accumulator and the error count untouched. -/
theorem null_line_step (l : String) (rest : List String) (i k : Nat)
    (cols : List String) (h : jsTrim l = "null") :
    processLines (l :: rest) i k cols =
      ({ index := k, data := Json.null, raw := "null", error := none } ::
          (processLines rest (i + 1) (k + 1) cols).1,
        (processLines rest (i + 1) (k + 1) cols).2.1,
        (processLines rest (i + 1) (k + 1) cols).2.2) := by
  simp only [processLines, h]
  rfl

theorem strApp (a b : String) : (a ++ b).data = a.data ++ b.data := rfl

theorem splitNlChars_no_nl (a : List Char) (h : ∀ c ∈ a, ¬ c = '\n') :
    splitNlChars a = [a] := by
  induction a with
  | nil => rfl
  | cons c t ih =>
    have hc : ¬ c = '\n' := h c (List.mem_cons_self c t)
    have ht := ih fun d hd => h d (List.mem_cons_of_mem c hd)
    simp only [splitNlChars]
    rw [if_neg hc, ht]

theorem splitNlChars_append (a : List Char) (h : ∀ c ∈ a, ¬ c = '\n') (b : List Char) :
    splitNlChars (a ++ '\n' :: b) = a :: splitNlChars b := by
  induction a with
  | nil => simp [splitNlChars]
  | cons c t ih =>
    have hc : ¬ c = '\n' := h c (List.mem_cons_self c t)
    have ht := ih fun d hd => h d (List.mem_cons_of_mem c hd)
    simp only [List.cons_append, splitNlChars]
    have ht2 : splitNlChars (t.append ('\n' :: b)) = t :: splitNlChars b := ht
    rw [if_neg hc, ht2]

theorem splitNl_join_lf (l : String) (ls : List String)
    (h : ∀ x ∈ l :: ls, ∀ c ∈ x.data, ¬ c = '\n') :
    splitNl (joinSep "\n" (l :: ls)) = l :: ls := by
  induction ls generalizing l with
  | nil =>
    show splitNl l = [l]
    unfold splitNl
    rw [splitNlChars_no_nl l.data (h l (List.mem_cons_self l []))]
    rfl
  | cons l2 t ih =>
    show splitNl (l ++ "\n" ++ joinSep "\n" (l2 :: t)) = l :: l2 :: t
    unfold splitNl
    have hdata : (l ++ "\n" ++ joinSep "\n" (l2 :: t)).data =
        l.data ++ '\n' :: (joinSep "\n" (l2 :: t)).data := by
      rw [strApp, strApp, List.append_assoc]
      rfl
    rw [hdata, splitNlChars_append l.data (h l (List.mem_cons_self l _)) _]
    have ih2 := ih l2 fun x hx => h x (List.mem_cons_of_mem l hx)
    unfold splitNl at ih2
    simp only [List.map_cons]
    rw [ih2]

theorem splitNl_join_crlf (l : String) (ls : List String)
    (h : ∀ x ∈ l :: ls, ∀ c ∈ x.data, ¬ c = '\n') :
    splitNl (joinSep "\r\n" (l :: ls)) = addCr (l :: ls) := by
  induction ls generalizing l with
  | nil =>
    show splitNl l = [l]
    unfold splitNl
    rw [splitNlChars_no_nl l.data (h l (List.mem_cons_self l []))]
    rfl
  | cons l2 t ih =>
    show splitNl (l ++ "\r\n" ++ joinSep "\r\n" (l2 :: t)) = (l ++ "\r") :: addCr (l2 :: t)
    unfold splitNl
    have hdata : (l ++ "\r\n" ++ joinSep "\r\n" (l2 :: t)).data =
        (l.data ++ ['\r']) ++ '\n' :: (joinSep "\r\n" (l2 :: t)).data := by
      rw [strApp, strApp, List.append_assoc, List.append_assoc]
      rfl
    have hnocr : ∀ c ∈ l.data ++ ['\r'], ¬ c = '\n' := by
      intro c hc
      rcases List.mem_append.mp hc with hc | hc
      · exact h l (List.mem_cons_self l _) c hc
      · rw [List.mem_singleton.mp hc]; decide
    rw [hdata, splitNlChars_append _ hnocr _]
    have ih2 := ih l2 fun x hx => h x (List.mem_cons_of_mem l hx)
    unfold splitNl at ih2
    simp only [List.map_cons]
    rw [ih2]
    rfl

theorem dropWhile_append_one (p : Char → Bool) (cs : List Char) (c : Char) (hc : p c = true) :
    List.dropWhile p (cs ++ [c]) =
      if List.dropWhile p cs = [] then [] else List.dropWhile p cs ++ [c] := by
  induction cs with
  | nil => simp [List.dropWhile, hc]
  | cons a t ih =>
    simp only [List.cons_append, List.dropWhile_cons]
    by_cases ha : p a = true
    · rw [if_pos ha, if_pos ha, ih]
    · rw [if_neg ha, if_neg ha]
      rw [if_neg (by simp)]
      rfl

theorem trimChars_append_ws (cs : List Char) (c : Char) (hc : isJsWs c = true) :
    trimChars (cs ++ [c]) = trimChars cs := by
  unfold trimChars
  rw [dropWhile_append_one isJsWs cs c hc]
  by_cases hd : List.dropWhile isJsWs cs = []
  · rw [if_pos hd, hd]
  · rw [if_neg hd]
    rw [List.reverse_append]
    simp only [List.reverse_singleton, List.singleton_append, List.dropWhile_cons, hc,
      if_pos]

theorem jsTrim_append_cr (l : String) : jsTrim (l ++ "\r") = jsTrim l := by
  unfold jsTrim
  rw [strApp]
  rw [show ("\r" : String).data = ['\r'] from rfl]
  rw [trimChars_append_ws l.data '\r' rfl]

theorem processLines_addCr (ls : List String) : ∀ (i k : Nat) (cols : List String),
    processLines (addCr ls) i k cols = processLines ls i k cols := by
  induction ls with
  | nil => intro i k cols; rfl
  | cons l rest ih =>
    intro i k cols
    cases rest with
    | nil => rfl
    | cons l2 t =>
      show processLines ((l ++ "\r") :: addCr (l2 :: t)) i k cols =
        processLines (l :: l2 :: t) i k cols
      simp only [processLines, jsTrim_append_cr]
      by_cases hb : jsTrim l = ""
      · rw [if_pos hb, if_pos hb]
        exact ih _ _ _
      · rw [if_neg hb, if_neg hb]
        simp only [ih]
        rfl

/-- C10: line-oriented parsing is invariant under the line-terminator
convention: for lines free of `\n` and `\r`, joining with CRLF and joining
with LF give equal `ParseResult`s, because each line is trimmed (removing
the trailing carriage return) before parsing and before being stored. -/
theorem crlf_lf_equivalence (ls : List String) (h : ls.all noCrLf = true) :
    parseLines (joinSep "\r\n" ls) = parseLines (joinSep "\n" ls) := by
  cases ls with
  | nil => rfl
  | cons l rest =>
    have hno : ∀ x ∈ l :: rest, ∀ c ∈ x.data, ¬ c = '\n' := by
      intro x hx c hcx he
      subst he
      have hx2 := List.all_eq_true.mp h x hx
      unfold noCrLf at hx2
      have hc2 := List.all_eq_true.mp hx2 '\n' hcx
      simp at hc2
    unfold parseLines
    rw [splitNl_join_crlf l rest hno, splitNl_join_lf l rest hno, processLines_addCr]

/-- C1: for every input string (including the empty string), `parseJsonl`
returns a `ParseResult`; a whole-document JSON parse failure is absorbed by
the fallback to line-oriented parsing, never surfaced to the caller. -/
theorem parseJsonl_total_and_absorbs (text : String) :
    (∃ res : ParseResult, parseJsonl text = res) ∧
    (Json.parse (jsTrim text) = none → parseJsonl text = parseLines text) := by
  refine ⟨⟨parseJsonl text, rfl⟩, fun h => ?_⟩
  unfold parseJsonl
  by_cases hc : (headIs (jsTrim text) '[' || headIs (jsTrim text) '\x7b') = true
  · rw [if_pos hc, h]
  · rw [if_neg hc]

/-- Witness for C1 at the concrete input `"["` (whole-document parse fails,
fallback taken). -/
theorem parseJsonl_total_and_absorbs_witness :
    Json.parse (jsTrim "[") = none ∧ parseJsonl "[" = parseLines "[" :=
  ⟨rfl, (parseJsonl_total_and_absorbs "[").2 rfl⟩

/-- C2 counterexample: on input `"null"` the single emitted record has
`data = Json.null` (the JavaScript null) and no `error`, so neither of the
two allegedly exclusive alternatives holds. -/
theorem record_exclusivity_counterexample :
    ¬ (∀ r ∈ (parseJsonl "null").records,
        (r.data ≠ Json.null ∧ r.error = none) ∨ (r.data = Json.null ∧ r.error.isSome = true)) := by
  intro hall
  have he : (parseJsonl "null").records =
      [{ index := 0, data := Json.null, raw := "null", error := none }] := rfl
  rw [he] at hall
  rcases hall _ (List.mem_singleton_self _) with ⟨hne, _⟩ | ⟨_, hs⟩
  · exact hne rfl
  · simp at hs

/-- C2 (amended): every record has at most one of {data non-null, error
present} — a record with an error always has null data — and a record with
no error can have null data only when its raw text parses to the JSON value
`null` (a line-oriented `null` literal). -/
theorem record_data_error_invariant (text : String) (r : ParsedRecord)
    (hr : r ∈ (parseJsonl text).records) :
    (r.error.isSome = true → r.data = Json.null) ∧
    (r.error = none → r.data ≠ Json.null ∨ Json.parse r.raw = some Json.null) := by
  rcases parseJsonl_cases text with h | ⟨items, hp, h⟩ | ⟨fs, hp, h⟩
  · rw [h] at hr
    have hinv := processLines_record_inv (splitNl text) 0 0 [] r hr
    refine ⟨hinv.2, fun he => ?_⟩
    by_cases hn : r.data = Json.null
    · have hpr := hinv.1 he
      rw [hn] at hpr
      exact Or.inr hpr
    · exact Or.inl hn
  · rw [h] at hr
    refine ⟨fun hs => ?_, fun _ => Or.inl ?_⟩
    · rw [buildResult_error_none _ r hr] at hs
      simp at hs
    · simp only [buildResult, List.mem_map] at hr
      rcases hr with ⟨it, hit, he⟩
      rw [← he]
      exact arrItems_data_ne_null items 0 it hit
  · rw [h] at hr
    simp only [buildResult, List.mem_map, List.mem_singleton] at hr
    rcases hr with ⟨it, hit, he⟩
    subst hit
    rw [← he]
    exact ⟨fun hs => by simp at hs, fun _ => Or.inl (by simp)⟩

/-- Witness for the amended C2 at input `"null"`, whose single record is the
borderline case. -/
theorem record_data_error_invariant_witness :
    ((⟨0, Json.null, "null", none⟩ : ParsedRecord) ∈ (parseJsonl "null").records) ∧
    Json.parse "null" = some Json.null := by
  have he : (parseJsonl "null").records =
      [{ index := 0, data := Json.null, raw := "null", error := none }] := rfl
  have hm : (⟨0, Json.null, "null", none⟩ : ParsedRecord) ∈ (parseJsonl "null").records := by
    rw [he]; exact List.mem_singleton_self _
  exact ⟨hm, ((record_data_error_invariant "null" _ hm).2 rfl).resolve_left
    (fun hne => absurd rfl hne)⟩

/-- C3: when the trimmed text does not start with `[` or `{`, and also when
it does but the whole-document parse fails or yields a value that is neither
an array nor an object, `parseJsonl` produces its result by line-oriented
parsing over the original untrimmed text. -/
theorem fallback_to_line_parsing (text : String) :
    (¬ (headIs (jsTrim text) '[' = true ∨ headIs (jsTrim text) '\x7b' = true) →
      parseJsonl text = parseLines text) ∧
    ((headIs (jsTrim text) '[' = true ∨ headIs (jsTrim text) '\x7b' = true) →
      (Json.parse (jsTrim text) = none ∨
        (∃ j, Json.parse (jsTrim text) = some j ∧ isArrVal j = false ∧ isObjVal j = false)) →
      parseJsonl text = parseLines text) := by
  constructor
  · intro hng
    unfold parseJsonl
    rw [if_neg (by simpa [Bool.or_eq_true] using hng)]
  · intro hg hbad
    unfold parseJsonl
    rw [if_pos (by simpa [Bool.or_eq_true] using hg)]
    rcases hbad with hnone | ⟨j, hj, hna, hno⟩
    · rw [hnone]
    · rw [hj]
      cases j with
      | arr items => simp [isArrVal] at hna
      | obj fs => simp [isObjVal] at hno
      | null => rfl
      | bool b => rfl
      | num lex => rfl
      | str s => rfl

/-- Witness for C3 at the concrete input `"[1"` (starts with `[`, whole
document fails to parse). -/
theorem fallback_to_line_parsing_witness :
    (headIs (jsTrim "[1") '[' = true ∨ headIs (jsTrim "[1") '\x7b' = true) ∧
    Json.parse (jsTrim "[1") = none ∧ parseJsonl "[1" = parseLines "[1" :=
  ⟨Or.inl rfl, rfl, (fallback_to_line_parsing "[1").2 (Or.inl rfl) (Or.inl rfl)⟩

/-- C4 counterexample: on input `"[[]]"` the only array element is an array,
not an object, yet its `data` is the element itself, not the claimed
wrapped mapping `{value: []}`. -/
theorem array_element_unwrapped_counterexample :
    (parseJsonl "[[]]").records =
      [{ index := 0, data := Json.arr [], raw := "[]", error := none }] ∧
    Json.arr ([] : List Json) ≠ Json.obj [("value", Json.arr [])] :=
  ⟨rfl, fun hcontra => Json.noConfusion hcontra⟩

/-- C4 (amended): when the trimmed input parses as a top-level JSON array,
`parseJsonl` emits one record per element in order, with `index` the 0-based
position, `data` the element itself when it is an object or an array and
the wrapped mapping `{value: element}` otherwise, `raw` the re-serialized
JSON text of the element, no per-record error, and `errorCount = 0`. -/
theorem whole_doc_array_records (text : String) (items : List Json)
    (h : Json.parse (jsTrim text) = some (Json.arr items)) :
    (parseJsonl text).errorCount = 0 ∧
    (parseJsonl text).records.length = items.length ∧
    ∀ (j : Nat) (x : Json), items.get? j = some x →
      (parseJsonl text).records.get? j =
        some { index := j, data := wrapItem x, raw := stringifyJson x, error := none } := by
  rw [parseJsonl_arr_branch text items h]
  refine ⟨rfl, by simp [buildResult, arrItems_length], fun j x hx => ?_⟩
  have hg := arrItems_get? items 0 j x hx
  show ((arrItems 0 items).map fun it =>
    ({ index := it.index, data := it.data, raw := it.raw } : ParsedRecord)).get? j = _
  rw [List.get?_map, hg]
  simp

/-- Witness for the amended C4 at input `"[1,[2]]"`: the array element `[2]`
stays unwrapped while the scalar `1` is wrapped. -/
theorem whole_doc_array_records_witness :
    Json.parse (jsTrim "[1,[2]]") = some (Json.arr [Json.num "1", Json.arr [Json.num "2"]]) ∧
    (parseJsonl "[1,[2]]").errorCount = 0 ∧
    (parseJsonl "[1,[2]]").records.get? 1 =
      some { index := 1, data := Json.arr [Json.num "2"], raw := "[2]", error := none } := by
  have h : Json.parse (jsTrim "[1,[2]]") =
      some (Json.arr [Json.num "1", Json.arr [Json.num "2"]]) := rfl
  have happ := whole_doc_array_records "[1,[2]]" _ h
  exact ⟨h, happ.1, happ.2.2 1 (Json.arr [Json.num "2"]) rfl⟩

/-- C5: the records of any `parseJsonl` result carry indices forming exactly
`0 .. N-1` in sequence order, and in the line-oriented path the number of
records equals the number of non-blank lines: blank lines consume no index
while failed lines do. -/
theorem index_contiguity (text : String) :
    ((parseJsonl text).records.map fun r => r.index) =
      List.range (parseJsonl text).records.length ∧
    (parseLines text).records.length = nbCount (splitNl text) := by
  constructor
  · rcases parseJsonl_cases text with h | ⟨items, hp, h⟩ | ⟨fs, hp, h⟩
    · rw [h]
      show ((processLines (splitNl text) 0 0 []).1.map fun r => r.index) =
        List.range (processLines (splitNl text) 0 0 []).1.length
      rw [processLines_indices, processLines_length, List.range_eq_range']
    · rw [h, buildResult_records_map_index]
      have hm : ((arrItems 0 items).map fun it => it.index) = List.range' 0 items.length :=
        arrItems_map_index items 0
      have hlen : (buildResult (arrItems 0 items)).records.length = items.length := by
        simp [buildResult, arrItems_length]
      rw [hm, hlen, List.range_eq_range']
    · rw [h]
      rfl
  · exact processLines_length _ _ _ _

theorem buildResult_errorCount_eq (items : List BuildItem) :
    (buildResult items).errorCount =
      ((buildResult items).records.filter fun r => r.error.isSome).length := by
  have hf : ((buildResult items).records.filter fun r => r.error.isSome) = [] := by
    rw [List.filter_eq_nil_iff]
    intro r hr
    rw [buildResult_error_none _ r hr]
    simp
  rw [hf]
  rfl

/-- C6: for every input, `errorCount` equals the number of records whose
`error` field is present. -/
theorem error_count_matches_records (text : String) :
    (parseJsonl text).errorCount =
      ((parseJsonl text).records.filter fun r => r.error.isSome).length := by
  rcases parseJsonl_cases text with h | ⟨items, hp, h⟩ | ⟨fs, hp, h⟩
  · rw [h]
    exact processLines_errorCount _ _ _ _
  · rw [h]
    exact buildResult_errorCount_eq _
  · rw [h]
    exact buildResult_errorCount_eq _

/-- C8: for every input, `columns` equals the Schema Accumulator result as
specified: the duplicate-free union of the keys of every record whose data
is an object (not an array), in first-seen order across the emitted record
sequence. -/
theorem columns_first_seen_union (text : String) :
    (parseJsonl text).columns = specColumns (parseJsonl text).records := by
  rcases parseJsonl_cases text with h | ⟨items, hp, h⟩ | ⟨fs, hp, h⟩
  · rw [h]
    exact processLines_columns _ _ _ _
  · rw [h]
    exact buildResult_columns_fold _
  · rw [h]
    exact buildResult_columns_fold _

/-- C7: in line-oriented parsing, every non-blank line that fails to parse
yields — at the record position given by the count of earlier non-blank
lines — a record with `data = Json.null`, `raw` the trimmed line, and an
error naming the 1-based physical line number; blank lines contribute no
records and do not shift reported line numbers. -/
theorem line_error_reporting (text : String) (j : Nat) (x : String)
    (h1 : (splitNl text).get? j = some x) (h2 : jsTrim x ≠ "")
    (h3 : Json.parse (jsTrim x) = none) :
    (parseLines text).records.get? (nbCount ((splitNl text).take j)) =
      some { index := nbCount ((splitNl text).take j), data := Json.null, raw := jsTrim x,
             error := some ("Malformed JSON on line " ++ toString (j + 1)) } := by
  have h := processLines_error_at (splitNl text) 0 0 [] j x h1 h2 h3
  simpa using h

/-- Witness for C7 at input `"1\n\nbad"`: the failure on physical line 3 is
the record at position 1. -/
theorem line_error_reporting_witness :
    (splitNl "1\n\nbad").get? 2 = some "bad" ∧ jsTrim "bad" ≠ "" ∧
    Json.parse (jsTrim "bad") = none ∧
    (parseLines "1\n\nbad").records.get? 1 =
      some { index := 1, data := Json.null, raw := "bad",
             error := some "Malformed JSON on line 3" } := by
  have h1 : (splitNl "1\n\nbad").get? 2 = some "bad" := rfl
  have h2 : jsTrim "bad" ≠ "" := by decide
  have h3 : Json.parse (jsTrim "bad") = none := rfl
  have happ := line_error_reporting "1\n\nbad" 2 "bad" h1 h2 h3
  exact ⟨h1, h2, h3, happ⟩

/-- Witness for C9: the line `" null "` trims to `"null"` and steps exactly
as the theorem states, at an arbitrary concrete machine state. -/
theorem null_line_step_witness :
    jsTrim " null " = "null" ∧
    processLines [" null ", "x"] 5 2 ["a"] =
      ({ index := 2, data := Json.null, raw := "null", error := none } ::
          (processLines ["x"] 6 3 ["a"]).1,
        (processLines ["x"] 6 3 ["a"]).2.1,
        (processLines ["x"] 6 3 ["a"]).2.2) := by
  have h : jsTrim " null " = "null" := rfl
  exact ⟨h, null_line_step " null " ["x"] 5 2 ["a"] h⟩

/-- Witness for C10 at the concrete line list `["1", "bad"]`. -/
theorem crlf_lf_equivalence_witness :
    ((["1", "bad"] : List String).all noCrLf = true) ∧
    parseLines (joinSep "\r\n" ["1", "bad"]) = parseLines (joinSep "\n" ["1", "bad"]) := by
  have h : (["1", "bad"] : List String).all noCrLf = true := rfl
  exact ⟨h, crlf_lf_equivalence ["1", "bad"] h⟩
